import Mathlib

/-!
Verification of the `setzkasten` core engines: the canonical-document
fingerprinting primitive (`core.js`), the quote generation engine
(`packages/cli/src/lib/quote.js`) and the policy evaluation engine
(`packages/cli/src/lib/policy.js`).

The JavaScript source is shallowly embedded: JSON documents become the
inductive type `Json`; JS numbers are modeled as exact rationals (the
engines only check `Number.isFinite`, and no claim under scrutiny depends
on binary floating-point artifacts: every arithmetic step is two-decimal
money arithmetic); fallible code (`throw`) returns `Except`; the
`nowIso()` timestamp and the SHA-256 primitive (both Node builtins, not
repository code) are passed in as explicit parameters, so every engine is
a pure total function.

On JS property access: the engines guard every access with
`asObject` / optional chaining, and property access on a non-object
non-null value yields `undefined`; both `undefined` and `null` are mapped
to `Json.null` here, which is observationally correct because the engines
never distinguish them (they only use falsiness, `??`, `?.` and `typeof`
checks). Property access on JS `null` itself would throw, but the input
contract (a schema-validated manifest) excludes `null` where the engines
dereference, and the hypotheses of the theorems below only ever force
object-shaped values at those spots.
-/

namespace Setzkasten

/-- A JSON document value. Object fields are kept in insertion order; a
JS object never carries duplicate keys, which theorems assume where they
need it (as explicit `Nodup` hypotheses or constructor side conditions). -/
inductive Json : Type where
  | null : Json
  | bool (b : Bool) : Json
  | num (q : ℚ) : Json
  | str (s : String) : Json
  | arr (elems : List Json) : Json
  | obj (fields : List (String × Json)) : Json

/-- JS property read `v[k]`: on an object, the value of the (unique) key
`k` if present; `undefined`/missing and access on non-objects collapse to
`Json.null` (see the header comment). -/
def getProp : Json → String → Json
  | .obj fs, k => (((fs.find? (fun kv => kv.1 == k)).map Prod.snd).getD .null)
  | _, _ => .null

/-- `isPlainObject` from `core.js`: object-shaped, not an array, not null. -/
def isPlainObject : Json → Bool
  | .obj _ => true
  | _ => false

/-- `asObject` from `quote.js`/`policy.js`: the value itself when it is a
plain object, else `null`. -/
def asObject (v : Json) : Option Json :=
  if isPlainObject v then some v else none

/-- `asString` from `quote.js`/`policy.js`: non-empty strings only. -/
def asString : Json → Option String
  | .str s => if s = "" then none else some s
  | _ => none

/-- `asNumber` from `quote.js`: finite numbers only (every `Json.num` is
a finite rational in this model; JS `NaN`/`±Infinity` have no
counterpart and are subsumed by the non-number cases). -/
def asNumber : Json → Option ℚ
  | .num q => some q
  | _ => none

/-- `asStringArray` from `policy.js`: the non-empty string entries of an
array, `[]` for anything else. -/
def asStringArray (v : Json) : List String :=
  match v with
  | .arr xs => xs.filterMap (fun x =>
      match x with
      | .str s => if s = "" then none else some s
      | _ => none)
  | _ => []

/-- `asMetricLimits` from `quote.js` (and `normalizeRights` in
`policy.js` is the same shape): the object-shaped entries of an array,
`[]` for anything else. -/
def asMetricLimits (v : Json) : List Json :=
  match v with
  | .arr xs => xs.filter isPlainObject
  | _ => []

/-- `Array.isArray(x) ? x : []`, used for `manifest.fonts`,
`manifest.license_instances`, `manifest.license_offerings`. -/
def manifestArray (manifest : Json) (k : String) : List Json :=
  match getProp manifest k with
  | .arr xs => xs
  | _ => []

/-! ### String comparison

The engines sort with `a.localeCompare(b)` comparators. For the ASCII
identifier/diagnostic strings the engines produce, `localeCompare` agrees
with code-unit lexicographic comparison, which is what `strLeB` models. -/

/-- Lexicographic `≤` on character lists (by code point). -/
def charListLeB : List Char → List Char → Bool
  | [], _ => true
  | _ :: _, [] => false
  | a :: as, b :: bs =>
    if a < b then true
    else if b < a then false
    else charListLeB as bs

/-- The `localeCompare`-based sort comparator, as a boolean `≤`. -/
def strLeB (a b : String) : Bool :=
  charListLeB a.data b.data

theorem charListLeB_total : ∀ xs ys : List Char, (charListLeB xs ys || charListLeB ys xs) = true
  | [], _ => by simp [charListLeB]
  | _ :: _, [] => by simp [charListLeB]
  | a :: as, b :: bs => by
    rcases lt_trichotomy a b with h | h | h
    · simp [charListLeB, h]
    · subst h
      simpa [charListLeB] using charListLeB_total as bs
    · simp [charListLeB, h, lt_asymm h]

theorem charListLeB_trans : ∀ xs ys zs : List Char,
    charListLeB xs ys = true → charListLeB ys zs = true → charListLeB xs zs = true
  | [], _, _ => by simp [charListLeB]
  | _ :: _, [], _ => by simp [charListLeB]
  | _ :: _, _ :: _, [] => by simp [charListLeB]
  | a :: as, b :: bs, c :: cs => by
    intro hab hbc
    simp only [charListLeB] at hab hbc ⊢
    rcases lt_trichotomy a b with h1 | h1 | h1
    · rcases lt_trichotomy b c with h2 | h2 | h2
      · simp [lt_trans h1 h2]
      · subst h2
        simp [h1]
      · rw [if_neg (lt_asymm h2), if_pos h2] at hbc
        exact absurd hbc (by simp)
    · subst h1
      rw [if_neg (lt_irrefl a), if_neg (lt_irrefl a)] at hab
      rcases lt_trichotomy a c with h2 | h2 | h2
      · simp [h2]
      · subst h2
        rw [if_neg (lt_irrefl a), if_neg (lt_irrefl a)] at hbc ⊢
        exact charListLeB_trans as bs cs hab hbc
      · rw [if_neg (lt_asymm h2), if_pos h2] at hbc
        exact absurd hbc (by simp)
    · rw [if_neg (lt_asymm h1), if_pos h1] at hab
      exact absurd hab (by simp)

theorem charListLeB_antisymm : ∀ xs ys : List Char,
    charListLeB xs ys = true → charListLeB ys xs = true → xs = ys
  | [], [] => by simp
  | [], _ :: _ => by simp [charListLeB]
  | _ :: _, [] => by simp [charListLeB]
  | a :: as, b :: bs => by
    intro hab hba
    simp only [charListLeB] at hab hba
    rcases lt_trichotomy a b with h1 | h1 | h1
    · rw [if_neg (lt_asymm h1), if_pos h1] at hba
      exact absurd hba (by simp)
    · subst h1
      rw [if_neg (lt_irrefl a), if_neg (lt_irrefl a)] at hab hba
      rw [charListLeB_antisymm as bs hab hba]
    · rw [if_neg (lt_asymm h1), if_pos h1] at hab
      exact absurd hab (by simp)

theorem strLeB_total (a b : String) : (strLeB a b || strLeB b a) = true :=
  charListLeB_total a.data b.data

theorem strLeB_trans {a b c : String} (h1 : strLeB a b = true) (h2 : strLeB b c = true) :
    strLeB a c = true :=
  charListLeB_trans a.data b.data c.data h1 h2

theorem strLeB_antisymm {a b : String} (h1 : strLeB a b = true) (h2 : strLeB b a = true) :
    a = b := by
  apply String.ext
  exact charListLeB_antisymm a.data b.data h1 h2

theorem strLeB_refl (a : String) : strLeB a a = true := by
  have := strLeB_total a a
  simpa using this

/-! ### Money rounding (`roundMoney` from `core.js`)

`Math.round((value + Number.EPSILON) * 100) / 100`, with
`Number.EPSILON = 2⁻⁵²` and JS `Math.round x = ⌊x + 1/2⌋`. -/

/-- `roundMoney` from `core.js`. -/
def roundMoney (value : ℚ) : ℚ :=
  ((⌊(value + 1 / 2 ^ 52) * 100 + 1 / 2⌋ : ℤ) : ℚ) / 100

theorem roundMoney_eq_of {v : ℚ} {n : ℤ}
    (h1 : (n : ℚ) ≤ (v + 1 / 2 ^ 52) * 100 + 1 / 2)
    (h2 : (v + 1 / 2 ^ 52) * 100 + 1 / 2 < n + 1) :
    roundMoney v = (n : ℚ) / 100 := by
  unfold roundMoney
  rw [Int.floor_eq_iff.mpr ⟨h1, h2⟩]

/-! ### Canonicalization (`canonicalize` from `core.js`)

`canonicalize` recursively maps arrays element-wise and re-emits object
keys in ascending `localeCompare` order. The JS source sorts the keys
first and then canonicalizes each value; since the sort comparator reads
keys only and canonicalization preserves keys, canonicalizing values
first (as below, for structural recursion) yields the same value —
`sortFields_canonicalizeFields_comm` proves this commutation. -/

/-- Sort comparator on object fields: by key, `localeCompare` order. -/
def fieldLeB (a b : String × Json) : Bool :=
  strLeB a.1 b.1

/-- `Object.keys(value).sort((a, b) => a.localeCompare(b))`, applied to
the whole key/value entry list (keys are unique in a JS object). -/
def sortFields (fs : List (String × Json)) : List (String × Json) :=
  fs.mergeSort fieldLeB

mutual

/-- `canonicalize` from `core.js`. -/
def canonicalize : Json → Json
  | .null => .null
  | .bool b => .bool b
  | .num q => .num q
  | .str s => .str s
  | .arr xs => .arr (canonicalizeList xs)
  | .obj fs => .obj (sortFields (canonicalizeFields fs))

/-- `value.map((entry) => canonicalize(entry))`. -/
def canonicalizeList : List Json → List Json
  | [] => []
  | x :: xs => canonicalize x :: canonicalizeList xs

/-- `[key, canonicalize(value[key])]` over the entries. -/
def canonicalizeFields : List (String × Json) → List (String × Json)
  | [] => []
  | kv :: fs => (kv.1, canonicalize kv.2) :: canonicalizeFields fs

end

theorem canonicalizeList_eq_map (xs : List Json) :
    canonicalizeList xs = xs.map canonicalize := by
  induction xs with
  | nil => rfl
  | cons x xs ih => simp [canonicalizeList, ih]

theorem canonicalizeFields_eq_map (fs : List (String × Json)) :
    canonicalizeFields fs = fs.map (fun kv => (kv.1, canonicalize kv.2)) := by
  induction fs with
  | nil => rfl
  | cons kv fs ih => simp [canonicalizeFields, ih]

theorem canonicalizeFields_map_fst (fs : List (String × Json)) :
    (canonicalizeFields fs).map Prod.fst = fs.map Prod.fst := by
  induction fs with
  | nil => rfl
  | cons kv fs ih => simp [canonicalizeFields, ih]

theorem sortFields_sorted (fs : List (String × Json)) :
    (sortFields fs).Pairwise (fun a b => fieldLeB a b = true) := by
  apply List.sorted_mergeSort
  · intro a b c h1 h2
    exact strLeB_trans (a := a.1) (b := b.1) (c := c.1) h1 h2
  · intro a b
    exact strLeB_total a.1 b.1

theorem sortFields_perm (fs : List (String × Json)) :
    (sortFields fs).Perm fs :=
  List.mergeSort_perm fs fieldLeB

theorem sortFields_of_sorted {fs : List (String × Json)}
    (h : fs.Pairwise (fun a b => fieldLeB a b = true)) : sortFields fs = fs :=
  List.mergeSort_of_sorted h

/-- Two sorted field lists with the same entries and duplicate-free keys
are equal: the sorted order of a JS object's entries is unique. -/
theorem sorted_fields_perm_eq {fs gs : List (String × Json)}
    (h : fs.Perm gs) (hn : (fs.map Prod.fst).Nodup)
    (hs1 : fs.Pairwise (fun a b => fieldLeB a b = true))
    (hs2 : gs.Pairwise (fun a b => fieldLeB a b = true)) : fs = gs := by
  haveI : IsAntisymm (String × Json)
      (fun a b => fieldLeB a b = true ∧ a.1 ≠ b.1) := by
    constructor
    intro a b hab hba
    exact absurd (strLeB_antisymm hab.1 hba.1) hab.2
  have hn' : fs.Pairwise (fun a b => a.1 ≠ b.1) := List.pairwise_map.mp hn
  have hgn : gs.Pairwise (fun a b => a.1 ≠ b.1) := by
    have := (h.map Prod.fst).nodup_iff.mp hn
    exact List.pairwise_map.mp this
  exact List.eq_of_perm_of_sorted h (hs1.and hn') (hs2.and hgn)

theorem sortFields_eq_of_perm {fs gs : List (String × Json)}
    (h : fs.Perm gs) (hn : (fs.map Prod.fst).Nodup) :
    sortFields fs = sortFields gs := by
  apply sorted_fields_perm_eq
    (((sortFields_perm fs).trans h).trans (sortFields_perm gs).symm)
  · exact (((sortFields_perm fs).map Prod.fst).nodup_iff).mpr hn
  · exact sortFields_sorted fs
  · exact sortFields_sorted gs

/-- Sorting by key commutes with canonicalizing the values, certifying
that the definition order chosen in `canonicalize` matches the JS
source's sort-then-canonicalize order. -/
theorem sortFields_canonicalizeFields_comm (fs : List (String × Json)) :
    sortFields (canonicalizeFields fs) = canonicalizeFields (sortFields fs) := by
  rw [canonicalizeFields_eq_map, canonicalizeFields_eq_map, sortFields, sortFields]
  exact (List.map_mergeSort (r := fieldLeB) (s := fieldLeB)
    (f := fun kv => (kv.1, canonicalize kv.2)) (l := fs) (fun a _ b _ => rfl)).symm

/-- Structural induction for `Json` with membership hypotheses for the
nested lists. -/
theorem Json.inductionOn (P : Json → Prop)
    (hnull : P .null) (hbool : ∀ b, P (.bool b)) (hnum : ∀ q, P (.num q))
    (hstr : ∀ s, P (.str s))
    (harr : ∀ xs, (∀ x ∈ xs, P x) → P (.arr xs))
    (hobj : ∀ fs, (∀ kv ∈ fs, P kv.2) → P (.obj fs)) : ∀ v, P v
  | .null => hnull
  | .bool b => hbool b
  | .num q => hnum q
  | .str s => hstr s
  | .arr xs => harr xs (fun x _hx =>
      Json.inductionOn P hnull hbool hnum hstr harr hobj x)
  | .obj fs => hobj fs (fun kv _hkv =>
      Json.inductionOn P hnull hbool hnum hstr harr hobj kv.2)
termination_by v => sizeOf v
decreasing_by
  · have := List.sizeOf_lt_of_mem _hx
    simp only [Json.arr.sizeOf_spec]
    omega
  · have h1 := List.sizeOf_lt_of_mem _hkv
    have h2 : sizeOf kv.2 < sizeOf kv := by
      obtain ⟨k, v⟩ := kv
      simp only [Prod.mk.sizeOf_spec]
      omega
    simp only [Json.obj.sizeOf_spec]
    omega

theorem canonicalize_idem : ∀ v, canonicalize (canonicalize v) = canonicalize v := by
  intro v
  induction v using Json.inductionOn with
  | hnull => rfl
  | hbool b => rfl
  | hnum q => rfl
  | hstr s => rfl
  | harr xs ih =>
    simp only [canonicalize, canonicalizeList_eq_map, List.map_map]
    congr 1
    exact List.map_congr_left (fun x hx => ih x hx)
  | hobj fs ih =>
    simp only [canonicalize]
    congr 1
    have hfix : canonicalizeFields (sortFields (canonicalizeFields fs))
        = sortFields (canonicalizeFields fs) := by
      rw [canonicalizeFields_eq_map]
      conv_rhs => rw [← List.map_id (sortFields (canonicalizeFields fs))]
      apply List.map_congr_left
      intro kv hkv
      have hkv' : kv ∈ canonicalizeFields fs := ((sortFields_perm _).mem_iff).mp hkv
      rw [canonicalizeFields_eq_map] at hkv'
      obtain ⟨⟨k, v⟩, hmem, hkveq⟩ := List.mem_map.mp hkv'
      have : canonicalize kv.2 = kv.2 := by
        rw [← hkveq]
        exact ih (k, v) hmem
      simp [this]
    rw [hfix]
    exact sortFields_of_sorted (sortFields_sorted _)

mutual

/-- Deep "equal up to object key insertion order": scalars equal, arrays
pointwise related, objects a permutation of fields with equal keys and
related values. The `Nodup` side condition mirrors the fact that a JS
object never has duplicate keys. -/
inductive KeyPerm : Json → Json → Prop where
  | null : KeyPerm .null .null
  | bool (b : Bool) : KeyPerm (.bool b) (.bool b)
  | num (q : ℚ) : KeyPerm (.num q) (.num q)
  | str (s : String) : KeyPerm (.str s) (.str s)
  | arr {xs ys : List Json} : ListKeyPerm xs ys → KeyPerm (.arr xs) (.arr ys)
  | obj {fs gs' gs : List (String × Json)} : FieldsPointwise fs gs' →
      gs'.Perm gs → (fs.map Prod.fst).Nodup → KeyPerm (.obj fs) (.obj gs)

/-- Pointwise `KeyPerm` on array elements. -/
inductive ListKeyPerm : List Json → List Json → Prop where
  | nil : ListKeyPerm [] []
  | cons {v w : Json} {vs ws : List Json} : KeyPerm v w → ListKeyPerm vs ws →
      ListKeyPerm (v :: vs) (w :: ws)

/-- Entry-by-entry relatedness of object fields: equal keys,
`KeyPerm`-related values. -/
inductive FieldsPointwise : List (String × Json) → List (String × Json) → Prop where
  | nil : FieldsPointwise [] []
  | cons (k : String) {v w : Json} {fs gs : List (String × Json)} :
      KeyPerm v w → FieldsPointwise fs gs →
      FieldsPointwise ((k, v) :: fs) ((k, w) :: gs)

end

mutual

theorem keyPerm_canonicalize : ∀ {v w : Json}, KeyPerm v w →
    canonicalize v = canonicalize w
  | _, _, .null => rfl
  | _, _, .bool _ => rfl
  | _, _, .num _ => rfl
  | _, _, .str _ => rfl
  | _, _, .arr h => by
    simp only [canonicalize]
    rw [listKeyPerm_canonicalize h]
  | _, _, @KeyPerm.obj fs gs' gs hf hp hn => by
    simp only [canonicalize]
    congr 1
    have hmapped : (canonicalizeFields fs).Perm (canonicalizeFields gs) := by
      rw [fieldsPointwise_canonicalizeFields hf]
      rw [canonicalizeFields_eq_map, canonicalizeFields_eq_map]
      exact hp.map _
    apply sortFields_eq_of_perm hmapped
    rw [canonicalizeFields_map_fst]
    exact hn

theorem listKeyPerm_canonicalize : ∀ {xs ys : List Json}, ListKeyPerm xs ys →
    canonicalizeList xs = canonicalizeList ys
  | _, _, .nil => rfl
  | _, _, .cons h hs => by
    simp only [canonicalizeList]
    rw [keyPerm_canonicalize h, listKeyPerm_canonicalize hs]

theorem fieldsPointwise_canonicalizeFields : ∀ {fs gs : List (String × Json)},
    FieldsPointwise fs gs → canonicalizeFields fs = canonicalizeFields gs
  | _, _, .nil => rfl
  | _, _, .cons k h hs => by
    simp only [canonicalizeFields]
    rw [keyPerm_canonicalize h, fieldsPointwise_canonicalizeFields hs]

end

/-! ### Serialization and fingerprinting

`canonicalStringify(value) = JSON.stringify(canonicalize(value))` and
`sha256Hex` is Node's `crypto.createHash("sha256")`. `JSON.stringify`
and SHA-256 are platform builtins, not repository code: the serializer
below implements the JSON grammar directly (its number formatting is
`ℚ`'s `toString`, standing in for the JS shortest-round-trip double
formatting, which no theorem below depends on — both sides of every
proved equation serialize the very same value), and the hash is taken as
an arbitrary function parameter `sha256Hex`, which every fingerprint
theorem is uniform in. -/

/-- One hexadecimal digit (for `\uXXXX` escapes). -/
def hexDigit (n : ℕ) : Char :=
  if n < 10 then Char.ofNat (48 + n) else Char.ofNat (87 + n)

/-- JSON string-character escaping, per `JSON.stringify`. -/
def escapeJsonChar (c : Char) : String :=
  if c = '"' then "\\\""
  else if c = '\\' then "\\\\"
  else if c = '\n' then "\\n"
  else if c = '\r' then "\\r"
  else if c = '\t' then "\\t"
  else if c = Char.ofNat 8 then "\\b"
  else if c = Char.ofNat 12 then "\\f"
  else if c.toNat < 32 then
    "\\u00" ++ String.mk [hexDigit (c.toNat / 16), hexDigit (c.toNat % 16)]
  else String.mk [c]

/-- A JSON string literal with escapes. -/
def renderString (s : String) : String :=
  "\"" ++ String.join (s.data.map escapeJsonChar) ++ "\""

mutual

/-- The `JSON.stringify` serialization of a (already canonical) value. -/
def renderJson : Json → String
  | .null => "null"
  | .bool true => "true"
  | .bool false => "false"
  | .num q => toString q
  | .str s => renderString s
  | .arr xs => "[" ++ renderJsonList xs ++ "]"
  | .obj fs => "\x7b" ++ renderJsonFields fs ++ "\x7d"

def renderJsonList : List Json → String
  | [] => ""
  | [x] => renderJson x
  | x :: y :: xs => renderJson x ++ "," ++ renderJsonList (y :: xs)

def renderJsonFields : List (String × Json) → String
  | [] => ""
  | [kv] => renderString kv.1 ++ ":" ++ renderJson kv.2
  | kv :: kw :: fs => renderString kv.1 ++ ":" ++ renderJson kv.2 ++ "," ++ renderJsonFields (kw :: fs)

end

/-- `canonicalStringify` from `core.js`. -/
def canonicalStringify (v : Json) : String :=
  renderJson (canonicalize v)

/-- `fingerprint = sha256Hex(canonicalStringify(value))`, uniform in the
hash primitive (a Node builtin). -/
def fingerprintWith (sha256Hex : String → String) (v : Json) : String :=
  sha256Hex (canonicalStringify v)

/-- C6: fingerprinting is invariant under canonicalization
(`fingerprint(v) = fingerprint(canonicalize(v))` for every value and
every hash function), and two values that are deep-equal up to object
key insertion order (`KeyPerm`, which carries the JS guarantee that
object keys are duplicate-free) have identical fingerprints. -/
theorem fingerprint_canonicalize_invariant
    (sha256Hex : String → String) (v w : Json) :
    fingerprintWith sha256Hex (canonicalize v) = fingerprintWith sha256Hex v ∧
    (KeyPerm v w → fingerprintWith sha256Hex v = fingerprintWith sha256Hex w) := by
  constructor
  · unfold fingerprintWith canonicalStringify
    rw [canonicalize_idem]
  · intro hp
    unfold fingerprintWith canonicalStringify
    rw [keyPerm_canonicalize hp]

/-- C6 witness: a two-key object with its keys transposed, at a concrete
hash function. -/
theorem fingerprint_canonicalize_invariant_witness :
    fingerprintWith (fun s => s)
        (.obj [("b", .num 1), ("a", .str "x")])
      = fingerprintWith (fun s => s)
        (.obj [("a", .str "x"), ("b", .num 1)]) := by
  apply (fingerprint_canonicalize_invariant (fun s => s)
    (.obj [("b", .num 1), ("a", .str "x")])
    (.obj [("a", .str "x"), ("b", .num 1)])).2
  apply @KeyPerm.obj _ [("b", Json.num 1), ("a", Json.str "x")] _
  · exact FieldsPointwise.cons "b" (KeyPerm.num 1)
      (FieldsPointwise.cons "a" (KeyPerm.str "x") FieldsPointwise.nil)
  · exact List.Perm.swap _ _ _
  · simp

/-! ### The quote generation engine (`packages/cli/src/lib/quote.js`) -/

/-- The filter callback inside `matchesWhen`: a metric limit passes when
its `metric_type`/`period` agree with the clause's, for whichever of the
two the clause specified. -/
def whenFilterPred (metricType period : Option String) (limit : Json) : Bool :=
  (match metricType with
   | some mt => asString (getProp limit "metric_type") == some mt
   | none => true) &&
  (match period with
   | some pd => asString (getProp limit "period") == some pd
   | none => true)

/-- The candidate callback inside `matchesWhen`: the limit's `limit`
value is a finite number satisfying every present bound operator
(`value < gte`/`value <= gt`/`value > lte`/`value >= lt`/`value !== eq`
being the source's rejection tests). -/
def whenBoundSat (gteOp gtOp lteOp ltOp eqOp : Option ℚ) (candidate : Json) : Bool :=
  match asNumber (getProp candidate "limit") with
  | none => false
  | some value =>
    (match gteOp with | some g => decide (g ≤ value) | none => true) &&
    (match gtOp with | some g => decide (g < value) | none => true) &&
    (match lteOp with | some l => decide (value ≤ l) | none => true) &&
    (match ltOp with | some l => decide (value < l) | none => true) &&
    (match eqOp with | some e => decide (value = e) | none => true)

/-- `matchesWhen(when, instance)` from `quote.js`, translated
clause-for-clause: filter the instance's metric limits by the clause's
`metric_type`/`period` (when specified); fail if a filter was specified
and nothing survived; succeed if no bound operator is present; otherwise
some candidate limit (falling back to the unfiltered metric limits when
the filtered list is empty) must satisfy every present bound operator. -/
def matchesWhen (w inst : Json) : Bool :=
  let metricType := asString (getProp w "metric_type")
  let period := asString (getProp w "period")
  let limits := (asMetricLimits (getProp inst "metric_limits")).filter
    (whenFilterPred metricType period)
  if (metricType.isSome || period.isSome) && limits.isEmpty then false
  else
    let gteOp := asNumber (getProp w "gte")
    let gtOp := asNumber (getProp w "gt")
    let lteOp := asNumber (getProp w "lte")
    let ltOp := asNumber (getProp w "lt")
    let eqOp := asNumber (getProp w "eq")
    if gteOp.isNone && gtOp.isNone && lteOp.isNone && ltOp.isNone && eqOp.isNone then true
    else
      let candidates := if limits.isEmpty
        then asMetricLimits (getProp inst "metric_limits") else limits
      candidates.any (whenBoundSat gteOp gtOp lteOp ltOp eqOp)

/-- `makeOfferingKey` from `quote.js`/`policy.js`:
`` `${offeringId}@${offeringVersion}` ``. -/
def makeOfferingKey (offeringId offeringVersion : String) : String :=
  offeringId ++ "@" ++ offeringVersion

/-- A JS `Map` as an insertion-ordered association list; `set` replaces
in place or appends. -/
def mapSet (m : List (String × Json)) (k : String) (v : Json) : List (String × Json) :=
  if m.any (fun kv => kv.1 == k) then
    m.map (fun kv => if kv.1 == k then (kv.1, v) else kv)
  else m ++ [(k, v)]

/-- A JS `Map.get`, `undefined` as `none`. -/
def mapGet (m : List (String × Json)) (k : String) : Option Json :=
  (m.find? (fun kv => kv.1 == k)).map Prod.snd

/-- The `offeringsByKey` index built by both engines: keyed by
`makeOfferingKey`, later entries overwriting earlier ones. -/
def buildOfferingsByKey (offerings : List Json) : List (String × Json) :=
  offerings.foldl (fun m offering =>
    match asString (getProp offering "offering_id"),
          asString (getProp offering "offering_version") with
    | some offeringId, some offeringVersion =>
      mapSet m (makeOfferingKey offeringId offeringVersion) offering
    | _, _ => m) []

/-- One rule application: `amount = roundMoney(amount * multiplier + add)`
with `multiplier = asNumber(rule.multiplier) ?? 1` and
`add = asNumber(rule.add) ?? 0`. -/
def applyPriceRule (amount : ℚ) (rule : Json) : ℚ :=
  roundMoney (amount * ((asNumber (getProp rule "multiplier")).getD 1)
    + ((asNumber (getProp rule "add")).getD 0))

/-- `evaluateAmountForInstance(inst, offering)` from `quote.js`:
throws (`Except.error`) when `price_formula` is not an object or lacks a
non-empty `currency` string or a finite `base_price` number; otherwise
folds the object-shaped rules in declaration order, applying each rule
whose `when` clause is absent (or not an object) or matches. -/
def evaluateAmountForInstance (inst offering : Json) : Except String (String × ℚ) :=
  match asObject (getProp offering "price_formula") with
  | none => .error "price_formula missing for offering."
  | some priceFormula =>
    match asString (getProp priceFormula "currency"),
          asNumber (getProp priceFormula "base_price") with
    | some currency, some basePrice =>
      let rules := match getProp priceFormula "rules" with
        | .arr rs => rs.filter isPlainObject
        | _ => []
      let amount := rules.foldl (fun amount rule =>
        match asObject (getProp rule "when") with
        | some w => if matchesWhen w inst then applyPriceRule amount rule else amount
        | none => applyPriceRule amount rule) basePrice
      .ok (currency, roundMoney amount)
    | _, _ => .error "price_formula must include currency and base_price."

/-- A quote line item. -/
structure LineItem where
  license_id : String
  offering_id : String
  offering_version : String
  currency : String
  amount : ℚ
deriving DecidableEq

/-- What one loop iteration of `generateQuote` contributes. -/
inductive InstanceOutcome : Type where
  | skippedEntry (entry : String) : InstanceOutcome
  | item (li : LineItem) : InstanceOutcome
deriving DecidableEq

/-- The tail of one `generateQuote` loop iteration, after the
`license_id` and `status` gates: resolve `offering_ref`, look the
offering up, evaluate its price formula.
`asObject(inst.offering_ref)` followed by optional chaining collapses to
plain property reads (`getProp` is `null` on non-objects and missing
keys alike). -/
def stepInstanceResolve (offeringsByKey : List (String × Json)) (inst : Json)
    (licenseId : String) : Except String (Option InstanceOutcome) :=
  let offeringRef := getProp inst "offering_ref"
  match asString (getProp offeringRef "offering_id"),
        asString (getProp offeringRef "offering_version") with
  | some offeringId, some offeringVersion =>
    match mapGet offeringsByKey (makeOfferingKey offeringId offeringVersion) with
    | none => .ok (some (.skippedEntry (licenseId ++ ":offering_not_found")))
    | some offering =>
      match evaluateAmountForInstance inst offering with
      | .error e => .error e
      | .ok (currency, amount) =>
        .ok (some (.item ⟨licenseId, offeringId, offeringVersion, currency, amount⟩))
  | _, _ => .ok (some (.skippedEntry (licenseId ++ ":offering_ref_missing")))

/-- One iteration of the `generateQuote` inst loop: `none` when the
inst has no usable `license_id` (the silent `continue`), a skip
entry or a line item otherwise; `Except.error` when the price formula of
the resolved offering is malformed. -/
def stepInstance (offeringsByKey : List (String × Json)) (inst : Json) :
    Except String (Option InstanceOutcome) :=
  match asString (getProp inst "license_id") with
  | none => .ok none
  | some licenseId =>
    -- `if (status && status !== "active")`
    match asString (getProp inst "status") with
    | some status =>
      if status ≠ "active" then
        .ok (some (.skippedEntry (licenseId ++ ":status=" ++ status)))
      else stepInstanceResolve offeringsByKey inst licenseId
    | none => stepInstanceResolve offeringsByKey inst licenseId

/-- The `generateQuote` inst loop, accumulating line items and skip
entries in document order and propagating the first thrown error. -/
def processInstances (offeringsByKey : List (String × Json)) :
    List Json → Except String (List LineItem × List String)
  | [] => .ok ([], [])
  | inst :: rest =>
    match stepInstance offeringsByKey inst with
    | .error e => .error e
    | .ok none => processInstances offeringsByKey rest
    | .ok (some (.skippedEntry s)) =>
      (processInstances offeringsByKey rest).map (fun pr => (pr.1, s :: pr.2))
    | .ok (some (.item li)) =>
      (processInstances offeringsByKey rest).map (fun pr => (li :: pr.1, pr.2))

/-- `totals[currency] = roundMoney((totals[currency] ?? 0) + amount)`;
JS object keys keep first-insertion order. -/
def addTotals (totals : List (String × ℚ)) (currency : String) (amount : ℚ) :
    List (String × ℚ) :=
  if totals.any (fun kv => kv.1 == currency) then
    totals.map (fun kv => if kv.1 == currency then (kv.1, roundMoney (kv.2 + amount)) else kv)
  else totals ++ [(currency, roundMoney (0 + amount))]

/-- The totals loop of `generateQuote` over the sorted line items. -/
def computeTotals (lineItems : List LineItem) : List (String × ℚ) :=
  lineItems.foldl (fun totals li => addTotals totals li.currency li.amount) []

/-- `lineItems.sort((a, b) => a.license_id.localeCompare(b.license_id))`. -/
def sortLineItems (lineItems : List LineItem) : List LineItem :=
  lineItems.mergeSort (fun a b => strLeB a.license_id b.license_id)

/-- `skipped.sort((a, b) => a.localeCompare(b))`. -/
def sortStrings (xs : List String) : List String :=
  xs.mergeSort strLeB

/-- The JSON object a line item serializes to (field insertion order as
in the source). -/
def lineItemToJson (li : LineItem) : Json :=
  .obj [("license_id", .str li.license_id),
        ("offering_id", .str li.offering_id),
        ("offering_version", .str li.offering_version),
        ("currency", .str li.currency),
        ("amount", .num li.amount)]

/-- The `fingerprintTarget` object `{totals, line_items, skipped}`. -/
def quoteFingerprintTarget (totals : List (String × ℚ)) (lineItems : List LineItem)
    (skipped : List String) : Json :=
  .obj [("totals", .obj (totals.map (fun kv => (kv.1, Json.num kv.2)))),
        ("line_items", .arr (lineItems.map lineItemToJson)),
        ("skipped", .arr (skipped.map Json.str))]

/-- The quote result object. -/
structure Quote where
  generated_at : String
  totals : List (String × ℚ)
  line_items : List LineItem
  skipped : List String
  deterministic_hash : String
deriving DecidableEq

/-- `generateQuote(manifest)` from `quote.js`. The caller-side impurities
are explicit parameters: `sha256Hex` (Node crypto) and `now` (the
`nowIso()` timestamp). -/
def generateQuote (sha256Hex : String → String) (now : String) (manifest : Json) :
    Except String Quote :=
  let offerings := manifestArray manifest "license_offerings"
  let instances := manifestArray manifest "license_instances"
  let offeringsByKey := buildOfferingsByKey offerings
  (processInstances offeringsByKey instances).map (fun pr =>
    let lineItems := sortLineItems pr.1
    let totals := computeTotals lineItems
    let skipped := sortStrings pr.2
    { generated_at := now
      totals := totals
      line_items := lineItems
      skipped := skipped
      deterministic_hash :=
        sha256Hex (canonicalStringify (quoteFingerprintTarget totals lineItems skipped)) })

/-! ### C3: the three-way `when`-clause behavior -/

/-- The spec-side reference formulation of rule matching (spec §4.3
step 4 / §9 "three-way behavior"), for comparison with the source-side
`matchesWhen`: filter the metric limits to those passing the clause's
`metric_type`/`period` filter; a clause that specified a filter which
matched zero limits never matches; a clause with no bound operators
matches; otherwise at least one FILTERED limit must satisfy all present
bound operators. -/
def whenSpecMatches (w inst : Json) : Bool :=
  let metricType := asString (getProp w "metric_type")
  let period := asString (getProp w "period")
  let filtered := (asMetricLimits (getProp inst "metric_limits")).filter
    (whenFilterPred metricType period)
  let hasOps := (asNumber (getProp w "gte")).isSome || (asNumber (getProp w "gt")).isSome ||
    (asNumber (getProp w "lte")).isSome || (asNumber (getProp w "lt")).isSome ||
    (asNumber (getProp w "eq")).isSome
  if (metricType.isSome || period.isSome) && filtered.isEmpty then false
  else if !hasOps then true
  else filtered.any (whenBoundSat (asNumber (getProp w "gte")) (asNumber (getProp w "gt"))
    (asNumber (getProp w "lte")) (asNumber (getProp w "lt")) (asNumber (getProp w "eq")))

theorem whenFilterPred_none_none (limit : Json) : whenFilterPred none none limit = true := rfl

/-- The generalized form of the `matchesWhen`/`whenSpecMatches`
agreement: in every branch where the candidate fallback of the source
could differ from the spec's filtered list, the two coincide. -/
theorem matchesWhen_spec_aux (L : List Json) (mt pd : Option String)
    (g1 g2 g3 g4 g5 : Option ℚ) :
    (if (mt.isSome || pd.isSome) && (L.filter (whenFilterPred mt pd)).isEmpty then false
     else if g1.isNone && g2.isNone && g3.isNone && g4.isNone && g5.isNone then true
     else (if (L.filter (whenFilterPred mt pd)).isEmpty then L
       else L.filter (whenFilterPred mt pd)).any (whenBoundSat g1 g2 g3 g4 g5))
    =
    (if (mt.isSome || pd.isSome) && (L.filter (whenFilterPred mt pd)).isEmpty then false
     else if !(g1.isSome || g2.isSome || g3.isSome || g4.isSome || g5.isSome) then true
     else (L.filter (whenFilterPred mt pd)).any (whenBoundSat g1 g2 g3 g4 g5)) := by
  have hops : (g1.isNone && g2.isNone && g3.isNone && g4.isNone && g5.isNone)
      = !(g1.isSome || g2.isSome || g3.isSome || g4.isSome || g5.isSome) := by
    cases g1 <;> cases g2 <;> cases g3 <;> cases g4 <;> cases g5 <;> rfl
  rw [hops]
  by_cases hf : ((mt.isSome || pd.isSome) && (L.filter (whenFilterPred mt pd)).isEmpty) = true
  · rw [if_pos hf, if_pos hf]
  · rw [if_neg hf, if_neg hf]
    by_cases he : (L.filter (whenFilterPred mt pd)).isEmpty = true
    · have hmp : (mt.isSome || pd.isSome) = false := by
        cases hb : (mt.isSome || pd.isSome)
        · rfl
        · exact absurd (by simp [hb, he]) hf
      have hmt : mt = none := by
        cases mt
        · rfl
        · simp at hmp
      have hpd : pd = none := by
        cases pd
        · rfl
        · simp at hmp
      subst hmt hpd
      have hL : L.filter (whenFilterPred none none) = L :=
        List.filter_eq_self.mpr (fun a _ => whenFilterPred_none_none a)
      rw [hL] at he ⊢
      rw [if_pos he]
    · rw [if_neg he]

/-- C3: the source's `matchesWhen` realizes exactly the three-way
behavior the spec describes — no filter and no bound operators: match;
filter specified and zero limits pass it: no match; otherwise, with
bound operators present, match iff some filtered limit satisfies them
all (with no filter specified, "filtered" is all the instance's metric
limits, so the source's unfiltered fallback changes nothing). -/
theorem matchesWhen_eq_whenSpecMatches (w inst : Json) :
    matchesWhen w inst = whenSpecMatches w inst :=
  matchesWhen_spec_aux (asMetricLimits (getProp inst "metric_limits"))
    (asString (getProp w "metric_type")) (asString (getProp w "period"))
    (asNumber (getProp w "gte")) (asNumber (getProp w "gt"))
    (asNumber (getProp w "lte")) (asNumber (getProp w "lt"))
    (asNumber (getProp w "eq"))

/-! ### C1: which price formulas are a hard failure -/

theorem asObject_eq_some {v w : Json} :
    asObject v = some w ↔ (isPlainObject v = true ∧ w = v) := by
  unfold asObject
  by_cases h : isPlainObject v = true
  · simp [h, eq_comm]
  · simp [h]

/-- C1 (amended): `evaluateAmountForInstance` throws exactly when the
offering's `price_formula` is not a plain object, or its `currency` is
not a non-empty string, or its `base_price` is not a finite number. A
negative (finite) `base_price` is none of these: it is accepted and
priced, not a hard failure. -/
theorem evaluateAmountForInstance_error_iff (inst offering : Json) :
    (∃ e, evaluateAmountForInstance inst offering = .error e) ↔
    (asObject (getProp offering "price_formula") = none ∨
     asString (getProp (getProp offering "price_formula") "currency") = none ∨
     asNumber (getProp (getProp offering "price_formula") "base_price") = none) := by
  unfold evaluateAmountForInstance
  rcases hpf : asObject (getProp offering "price_formula") with _ | pf
  · simp [hpf]
  · have hpfeq : pf = getProp offering "price_formula" := (asObject_eq_some.mp hpf).2
    subst hpfeq
    rcases hc : asString (getProp (getProp offering "price_formula") "currency") with _ | c
    · simp [hpf, hc]
    · rcases hb : asNumber (getProp (getProp offering "price_formula") "base_price") with _ | b
      · simp [hpf, hc, hb]
      · simp [hpf, hc, hb]

/-- The C1 counterexample manifest: one offering whose `price_formula`
has a negative `base_price`, one active instance referencing it. -/
def c1Manifest : Json :=
  .obj [("license_offerings", .arr [
          .obj [("offering_id", .str "off_1"),
                ("offering_version", .str "1.0.0"),
                ("price_formula", .obj [("currency", .str "EUR"),
                                        ("base_price", .num (-5)),
                                        ("rules", .arr [])])]]),
        ("license_instances", .arr [
          .obj [("license_id", .str "lic_1"),
                ("status", .str "active"),
                ("offering_ref", .obj [("offering_id", .str "off_1"),
                                       ("offering_version", .str "1.0.0")])]])]

/-- C1 counterexample: on `c1Manifest` — an offering with
`base_price = -5` — quote generation does NOT fail: it emits a line item
of amount `-5` (and no skip entry), contradicting the claim that a
negative base price is a hard failure. -/
theorem c1_negative_base_price_not_error :
    (generateQuote (fun _ => "") "2024-01-01T00:00:00.000Z" c1Manifest).map
        (fun q => (q.line_items, q.skipped))
      = .ok ([⟨"lic_1", "off_1", "1.0.0", "EUR", -5⟩], []) := by
  have hrm : roundMoney (-5 : ℚ) = -5 := by
    have h := roundMoney_eq_of (v := -5) (n := -500) (by norm_num) (by norm_num)
    rw [h]
    norm_num
  simp [generateQuote, manifestArray, c1Manifest, getProp, buildOfferingsByKey,
    mapSet, mapGet, makeOfferingKey, processInstances, stepInstance,
    stepInstanceResolve, evaluateAmountForInstance, asObject, isPlainObject,
    asString, asNumber, sortLineItems, sortStrings, List.find?, hrm, Except.map]

/-! ### C4: rule compounding -/

/-- Spec-side rule applicability: a rule with no (object-shaped) `when`
clause always applies, otherwise its clause must match the instance. -/
def specRuleMatches (inst rule : Json) : Bool :=
  match asObject (getProp rule "when") with
  | some w => matchesWhen w inst
  | none => true

/-- The spec's compounding loop: `amount := base_price`, then for each
matching rule in declaration order
`amount := round2(amount * multiplier + add)` immediately, so each rule
compounds on the rounded prior result. -/
def specCompoundAmount (inst : Json) (basePrice : ℚ) (rules : List Json) : ℚ :=
  rules.foldl (fun amount rule =>
    if specRuleMatches inst rule then applyPriceRule amount rule else amount) basePrice

/-- The rules list the source extracts from a price formula. -/
def formulaRules (priceFormula : Json) : List Json :=
  match getProp priceFormula "rules" with
  | .arr rs => rs.filter isPlainObject
  | _ => []

/-- The C4 fixture offering (the repository's own quote fixture: base
price 100, one rule `{when: seats ≥ 10 per_year, multiplier: 1.5,
add: 20}`). -/
def c4Offering : Json :=
  .obj [("offering_id", .str "off_1"),
        ("offering_version", .str "1.0.0"),
        ("price_formula", .obj [
            ("currency", .str "EUR"),
            ("base_price", .num 100),
            ("rules", .arr [
              .obj [("when", .obj [("metric_type", .str "seats"),
                                   ("period", .str "per_year"),
                                   ("gte", .num 10)]),
                    ("multiplier", .num (3/2)),
                    ("add", .num 20)]])])]

/-- The C4 fixture instance (active, metric limit `seats = 20 per_year`). -/
def c4Instance : Json :=
  .obj [("license_id", .str "lic_1"),
        ("status", .str "active"),
        ("offering_ref", .obj [("offering_id", .str "off_1"),
                               ("offering_version", .str "1.0.0")]),
        ("metric_limits", .arr [
          .obj [("metric_type", .str "seats"),
                ("limit", .num 20),
                ("period", .str "per_year")]])]

/-- The C4 fixture manifest. -/
def c4Manifest : Json :=
  .obj [("license_offerings", .arr [c4Offering]),
        ("license_instances", .arr [c4Instance])]

set_option maxHeartbeats 1000000 in
/-- C4: (general) for a well-formed price formula the evaluated amount
is exactly the spec's immediate-rounding compound
`round2`-of-`foldl (round2 (amount * multiplier + add))` over the
matching rules in declaration order; (concrete) on the fixture manifest
— base 100, one matching rule ×1.5 +20 — the line item amount is 170 and
the totals are `{EUR: 170}`. -/
theorem evaluateAmount_compounds_rounded :
    (∀ inst offering pf c b,
      asObject (getProp offering "price_formula") = some pf →
      asString (getProp pf "currency") = some c →
      asNumber (getProp pf "base_price") = some b →
      evaluateAmountForInstance inst offering
        = .ok (c, roundMoney (specCompoundAmount inst b (formulaRules pf)))) ∧
    (generateQuote (fun _ => "") "2024-01-01T00:00:00.000Z" c4Manifest).map
        (fun q => (q.line_items, q.totals))
      = .ok ([⟨"lic_1", "off_1", "1.0.0", "EUR", 170⟩], [("EUR", 170)]) := by
  constructor
  · intro inst offering pf c b hpf hc hb
    have hpfeq : pf = getProp offering "price_formula" := (asObject_eq_some.mp hpf).2
    subst hpfeq
    unfold evaluateAmountForInstance
    rw [hpf]
    simp only [hc, hb]
    have hfn : (fun (amount : ℚ) (rule : Json) =>
        match asObject (getProp rule "when") with
        | some w => if matchesWhen w inst then applyPriceRule amount rule else amount
        | none => applyPriceRule amount rule)
        = (fun (amount : ℚ) (rule : Json) =>
            if specRuleMatches inst rule then applyPriceRule amount rule else amount) := by
      funext amount rule
      rcases hw : asObject (getProp rule "when") with _ | w <;>
        simp [specRuleMatches, hw]
    rw [specCompoundAmount, formulaRules, hfn]
  · have hrm : roundMoney ((100 : ℚ) * (3 / 2) + 20) = 170 := by
      have h := roundMoney_eq_of (v := (100 : ℚ) * (3 / 2) + 20) (n := 17000)
        (by norm_num) (by norm_num)
      rw [h]
      norm_num
    have hrm2 : roundMoney (170 : ℚ) = 170 := by
      have h := roundMoney_eq_of (v := (170 : ℚ)) (n := 17000) (by norm_num) (by norm_num)
      rw [h]
      norm_num
    have hrm3 : roundMoney ((0 : ℚ) + 170) = 170 := by
      rw [zero_add]
      exact hrm2
    have hd : decide ((10 : ℚ) ≤ 20) = true := decide_eq_true (by norm_num)
    simp [generateQuote, manifestArray, c4Manifest, c4Offering, c4Instance, getProp,
      buildOfferingsByKey, mapSet, mapGet, makeOfferingKey, processInstances, stepInstance,
      stepInstanceResolve, evaluateAmountForInstance, asObject, isPlainObject, asMetricLimits,
      asString, asNumber, matchesWhen, whenFilterPred, whenBoundSat, applyPriceRule,
      sortLineItems, sortStrings, computeTotals, addTotals, List.find?, Except.map,
      hd, hrm, hrm2, hrm3]

/-- C4 witness: the general compounding equation instantiated at the
fixture's instance and offering. -/
theorem evaluateAmount_compounds_rounded_witness :
    evaluateAmountForInstance c4Instance c4Offering
      = .ok ("EUR", roundMoney (specCompoundAmount c4Instance 100
          (formulaRules (getProp c4Offering "price_formula")))) := by
  apply evaluateAmount_compounds_rounded.1 c4Instance c4Offering
    (getProp c4Offering "price_formula") "EUR" 100
  · rfl
  · rfl
  · rfl

/-! ### C7: determinism and the hash's timestamp independence -/

set_option maxHeartbeats 800000 in
/-- C7: for a fixed manifest, quote generation is deterministic — the
timestamp parameter (the only impure input besides the hash primitive)
influences only `generated_at`, so `line_items`, `totals`, `skipped` and
`deterministic_hash` agree across invocations; and `deterministic_hash`
is exactly the fingerprint of `{totals, line_items, skipped}`, which
does not include the timestamp. -/
theorem generateQuote_deterministic (sha256Hex : String → String) (t₁ t₂ : String) (m : Json) :
    ((generateQuote sha256Hex t₁ m).map
        (fun q => (q.totals, q.line_items, q.skipped, q.deterministic_hash))
      = (generateQuote sha256Hex t₂ m).map
        (fun q => (q.totals, q.line_items, q.skipped, q.deterministic_hash))) ∧
    (∀ q, generateQuote sha256Hex t₁ m = .ok q →
      q.deterministic_hash
        = fingerprintWith sha256Hex (quoteFingerprintTarget q.totals q.line_items q.skipped)) := by
  constructor
  · rcases hpr : processInstances (buildOfferingsByKey (manifestArray m "license_offerings"))
        (manifestArray m "license_instances") with e | pr <;>
      simp [generateQuote, hpr, Except.map]
  · intro q hq
    rcases hpr : processInstances (buildOfferingsByKey (manifestArray m "license_offerings"))
        (manifestArray m "license_instances") with e | pr
    · simp [generateQuote, hpr, Except.map] at hq
    · simp only [generateQuote, hpr, Except.map, Except.ok.injEq] at hq
      subst hq
      rfl

/-- C7 witness: the empty manifest at two different timestamps and a
concrete hash function. -/
theorem generateQuote_deterministic_witness :
    ((generateQuote (fun _ => "x") "2024-01-01T00:00:00.000Z" (Json.obj [])).map
        (fun q => (q.totals, q.line_items, q.skipped, q.deterministic_hash))
      = (generateQuote (fun _ => "x") "2025-06-30T00:00:00.000Z" (Json.obj [])).map
        (fun q => (q.totals, q.line_items, q.skipped, q.deterministic_hash))) ∧
    (Quote.mk "2024-01-01T00:00:00.000Z" [] [] [] "x").deterministic_hash
      = fingerprintWith (fun _ => "x") (quoteFingerprintTarget [] [] []) := by
  refine ⟨(generateQuote_deterministic (fun _ => "x")
      "2024-01-01T00:00:00.000Z" "2025-06-30T00:00:00.000Z" (Json.obj [])).1, ?_⟩
  apply (generateQuote_deterministic (fun _ => "x")
      "2024-01-01T00:00:00.000Z" "2025-06-30T00:00:00.000Z" (Json.obj [])).2
  simp [generateQuote, manifestArray, getProp, buildOfferingsByKey, processInstances,
    sortLineItems, sortStrings, computeTotals, Except.map]

/-! ### C8: skip bookkeeping; C10: instances without a license id -/

/-- The skip entry (if any) an instance contributes. -/
def stepSkipEntry (offeringsByKey : List (String × Json)) (inst : Json) : Option String :=
  match stepInstance offeringsByKey inst with
  | .ok (some (.skippedEntry s)) => some s
  | _ => none

theorem processInstances_ok_skipped (offs : List (String × Json)) :
    ∀ (insts : List Json) (items : List LineItem) (skips : List String),
      processInstances offs insts = .ok (items, skips) →
      skips = insts.filterMap (stepSkipEntry offs) := by
  intro insts
  induction insts with
  | nil =>
    intro items skips h
    simp only [processInstances, Except.ok.injEq, Prod.mk.injEq] at h
    simp [← h.2]
  | cons i rest ih =>
    intro items skips h
    rcases hstep : stepInstance offs i with e | o
    · simp [processInstances, hstep] at h
    · match o with
      | none =>
        simp only [processInstances, hstep] at h
        simp only [List.filterMap_cons, stepSkipEntry, hstep]
        exact ih items skips h
      | some (.skippedEntry s) =>
        simp only [processInstances, hstep] at h
        rcases hpr : processInstances offs rest with e' | pr
        · simp [hpr, Except.map] at h
        · rw [hpr] at h
          simp only [Except.map, Except.ok.injEq, Prod.mk.injEq] at h
          simp only [List.filterMap_cons, stepSkipEntry, hstep]
          rw [← h.2]
          exact congrArg (s :: ·) (ih pr.1 pr.2 (by rw [hpr]))
      | some (.item li) =>
        simp only [processInstances, hstep] at h
        rcases hpr : processInstances offs rest with e' | pr
        · simp [hpr, Except.map] at h
        · rw [hpr] at h
          simp only [Except.map, Except.ok.injEq, Prod.mk.injEq] at h
          simp only [List.filterMap_cons, stepSkipEntry, hstep]
          rw [← h.2]
          exact ih pr.1 pr.2 (by rw [hpr])

/-- C8: per instance with a usable `license_id` — a present non-active
status contributes exactly the skip entry
`"<license_id>:status=<status>"` and no line item; a missing
`offering_ref` field contributes exactly
`"<license_id>:offering_ref_missing"`; an unresolved composite key
contributes exactly `"<license_id>:offering_not_found"`; and the final
`skipped` list of a generated quote is exactly the sorted collection of
the per-instance skip entries, sorted lexicographically. -/
theorem generateQuote_skips_spec :
    (∀ (offs : List (String × Json)) (inst : Json) (lid st : String),
      asString (getProp inst "license_id") = some lid →
      asString (getProp inst "status") = some st → st ≠ "active" →
      stepInstance offs inst = .ok (some (.skippedEntry (lid ++ ":status=" ++ st)))) ∧
    (∀ (offs : List (String × Json)) (inst : Json) (lid : String),
      asString (getProp inst "license_id") = some lid →
      (asString (getProp inst "status") = none ∨
       asString (getProp inst "status") = some "active") →
      (asString (getProp (getProp inst "offering_ref") "offering_id") = none ∨
       asString (getProp (getProp inst "offering_ref") "offering_version") = none) →
      stepInstance offs inst = .ok (some (.skippedEntry (lid ++ ":offering_ref_missing")))) ∧
    (∀ (offs : List (String × Json)) (inst : Json) (lid oid over : String),
      asString (getProp inst "license_id") = some lid →
      (asString (getProp inst "status") = none ∨
       asString (getProp inst "status") = some "active") →
      asString (getProp (getProp inst "offering_ref") "offering_id") = some oid →
      asString (getProp (getProp inst "offering_ref") "offering_version") = some over →
      mapGet offs (makeOfferingKey oid over) = none →
      stepInstance offs inst = .ok (some (.skippedEntry (lid ++ ":offering_not_found")))) ∧
    (∀ (sha256Hex : String → String) (t : String) (m : Json) (q : Quote),
      generateQuote sha256Hex t m = .ok q →
      q.skipped = sortStrings ((manifestArray m "license_instances").filterMap
        (stepSkipEntry (buildOfferingsByKey (manifestArray m "license_offerings")))) ∧
      q.skipped.Pairwise (fun a b => strLeB a b = true)) := by
  refine ⟨?_, ?_, ?_, ?_⟩
  · intro offs inst lid st h1 h2 h3
    simp [stepInstance, h1, h2, h3]
  · intro offs inst lid h1 h2 h3
    rcases hx : asString (getProp (getProp inst "offering_ref") "offering_id") with _ | oid
    · rcases h2 with h2 | h2 <;>
        simp [stepInstance, stepInstanceResolve, h1, h2, hx]
    · rcases h3 with h3 | h3
      · rw [hx] at h3
        exact absurd h3 (by simp)
      · rcases h2 with h2 | h2 <;>
          simp [stepInstance, stepInstanceResolve, h1, h2, hx, h3]
  · intro offs inst lid oid over h1 h2 h3 h4 h5
    rcases h2 with h2 | h2 <;>
      simp [stepInstance, stepInstanceResolve, h1, h2, h3, h4, h5]
  · intro sha256Hex t m q hq
    rcases hpr : processInstances (buildOfferingsByKey (manifestArray m "license_offerings"))
        (manifestArray m "license_instances") with e | pr
    · simp [generateQuote, hpr, Except.map] at hq
    · simp only [generateQuote, hpr, Except.map, Except.ok.injEq] at hq
      subst hq
      constructor
      · exact congrArg sortStrings
          (processInstances_ok_skipped _ _ pr.1 pr.2 (by rw [hpr]))
      · apply List.sorted_mergeSort
        · intro a b c hab hbc
          exact strLeB_trans hab hbc
        · intro a b
          exact strLeB_total a b

/-- C8 witness instance: present non-active status. -/
def c8InstExpired : Json :=
  .obj [("license_id", .str "lic_c"), ("status", .str "expired")]

/-- C8 witness instance: no `offering_ref` at all. -/
def c8InstNoRef : Json :=
  .obj [("license_id", .str "lic_a")]

/-- C8 witness instance: `offering_ref` pointing at a non-existent
offering. -/
def c8InstNotFound : Json :=
  .obj [("license_id", .str "lic_b"),
        ("offering_ref", .obj [("offering_id", .str "off_x"),
                               ("offering_version", .str "1.0.0")])]

/-- C8 witness manifest: the three skip shapes at once, no offerings. -/
def c8Manifest : Json :=
  .obj [("license_instances", .arr [c8InstNoRef, c8InstNotFound, c8InstExpired])]

/-- C8 witness: each skip case at a concrete instance, and the full
quote on the three-instance manifest carrying exactly the three sorted
entries. -/
theorem generateQuote_skips_spec_witness :
    stepInstance [] c8InstExpired
      = .ok (some (.skippedEntry ("lic_c" ++ ":status=" ++ "expired"))) ∧
    stepInstance [] c8InstNoRef
      = .ok (some (.skippedEntry ("lic_a" ++ ":offering_ref_missing"))) ∧
    stepInstance [] c8InstNotFound
      = .ok (some (.skippedEntry ("lic_b" ++ ":offering_not_found"))) ∧
    ((Quote.mk "2024-01-01T00:00:00.000Z" [] []
        ["lic_a:offering_ref_missing", "lic_b:offering_not_found", "lic_c:status=expired"]
        "h").skipped
      = sortStrings ((manifestArray c8Manifest "license_instances").filterMap
          (stepSkipEntry (buildOfferingsByKey (manifestArray c8Manifest "license_offerings")))) ∧
     (Quote.mk "2024-01-01T00:00:00.000Z" [] []
        ["lic_a:offering_ref_missing", "lic_b:offering_not_found", "lic_c:status=expired"]
        "h").skipped.Pairwise (fun a b => strLeB a b = true)) := by
  have hsorted : List.Pairwise (fun a b => strLeB a b = true)
      ["lic_a:offering_ref_missing", "lic_b:offering_not_found", "lic_c:status=expired"] := by
    decide
  have hs : List.mergeSort
      ["lic_a:offering_ref_missing", "lic_b:offering_not_found", "lic_c:status=expired"] strLeB
      = ["lic_a:offering_ref_missing", "lic_b:offering_not_found", "lic_c:status=expired"] :=
    List.mergeSort_of_sorted hsorted
  refine ⟨generateQuote_skips_spec.1 [] c8InstExpired "lic_c" "expired" rfl rfl (by decide),
    generateQuote_skips_spec.2.1 [] c8InstNoRef "lic_a" rfl (Or.inl rfl) (Or.inl rfl),
    generateQuote_skips_spec.2.2.1 [] c8InstNotFound "lic_b" "off_x" "1.0.0"
      rfl (Or.inl rfl) rfl rfl rfl,
    generateQuote_skips_spec.2.2.2 (fun _ => "h") "2024-01-01T00:00:00.000Z" c8Manifest _ ?_⟩
  simp [generateQuote, c8Manifest, c8InstExpired, c8InstNoRef, c8InstNotFound,
    manifestArray, getProp, buildOfferingsByKey, mapGet, makeOfferingKey,
    processInstances, stepInstance, stepInstanceResolve, asString, asObject,
    isPlainObject, sortLineItems, sortStrings, computeTotals, List.find?,
    Except.map, hs]

/-- C10: an instance whose `license_id` is absent, not a string, or an
empty string is silently dropped by `generateQuote`: the loop iteration
yields `none` — no line item, no skip entry and no thrown error — for
EVERY offerings index, in particular one whose price formula is
malformed; a whole quote over such an instance succeeds with empty
line items and empty skips regardless of the offerings document. (The
`inst ≠ null` hypothesis keeps the statement inside the JS-faithful
domain: property access on `null` itself would throw a `TypeError`
before `asString` ever ran.) -/
theorem stepInstance_no_license_id_dropped :
    (∀ (offs : List (String × Json)) (inst : Json), inst ≠ Json.null →
      asString (getProp inst "license_id") = none →
      stepInstance offs inst = .ok none) ∧
    (∀ (sha256Hex : String → String) (t : String) (offerings inst : Json),
      inst ≠ Json.null →
      asString (getProp inst "license_id") = none →
      (generateQuote sha256Hex t (.obj [("license_offerings", offerings),
          ("license_instances", .arr [inst])])).map (fun q => (q.line_items, q.skipped))
        = .ok ([], [])) := by
  constructor
  · intro offs inst _ h
    simp [stepInstance, h]
  · intro sha256Hex t offerings inst hnn h
    have hstep : ∀ offs, stepInstance offs inst = .ok none := by
      intro offs
      simp [stepInstance, h]
    have h1 : manifestArray (.obj [("license_offerings", offerings),
        ("license_instances", .arr [inst])]) "license_instances" = [inst] := by
      simp [manifestArray, getProp]
    simp [generateQuote, h1, hstep, processInstances, sortLineItems, sortStrings,
      computeTotals, Except.map]

/-- A malformed offering (price formula not an object) for the C10
witness: even listed in the manifest, it cannot make the dropped
instance fail. -/
def c10BadOfferings : Json :=
  .arr [.obj [("offering_id", .str "off_bad"),
              ("offering_version", .str "1.0.0"),
              ("price_formula", .str "not-an-object")]]

/-- C10 witness: an instance with no `license_id` at all, next to a
malformed offering. -/
theorem stepInstance_no_license_id_dropped_witness :
    stepInstance (buildOfferingsByKey [getProp c10BadOfferings "0"]) (Json.obj [])
      = .ok none ∧
    (generateQuote (fun _ => "") "2024-01-01T00:00:00.000Z"
        (.obj [("license_offerings", c10BadOfferings),
               ("license_instances", .arr [Json.obj []])])).map
        (fun q => (q.line_items, q.skipped))
      = .ok ([], []) := by
  constructor
  · exact stepInstance_no_license_id_dropped.1 _ (Json.obj [])
      (fun h => Json.noConfusion h) rfl
  · exact stepInstance_no_license_id_dropped.2 (fun _ => "")
      "2024-01-01T00:00:00.000Z" c10BadOfferings (Json.obj [])
      (fun h => Json.noConfusion h) rfl

/-! ### The policy evaluation engine (`packages/cli/src/lib/policy.js`)

The per-font loop body is translated as one function per contiguous
block of the JS loop (BYO checks, status check, domain check, offering
resolution, rights checks), concatenated in push order; the JS
`continue` statements correspond exactly to the block boundaries. -/

/-- A policy finding. -/
structure Reason where
  code : String
  severity : String
  message : String
  context : Json

/-- The policy result object. -/
structure PolicyResult where
  decision : String
  reasons : List Reason
  evidence_required : List String

/-- `readProjectDomains` from `policy.js`. -/
def readProjectDomains (manifest : Json) : List String :=
  match asObject (getProp manifest "project") with
  | none => []
  | some project => asStringArray (getProp project "domains")

/-- `readRequiredModifications` from `policy.js`: the first of the three
candidate usage fields with a non-empty string array. -/
def readRequiredModifications (fontUsage : Json) : List String :=
  match asObject fontUsage with
  | none => []
  | some usage =>
    let c1 := asStringArray (getProp usage "required_modifications")
    if ¬c1.isEmpty then c1
    else
      let c2 := asStringArray (getProp usage "modifications_required")
      if ¬c2.isEmpty then c2
      else
        let c3 := asStringArray (getProp usage "requiredModificationKinds")
        if ¬c3.isEmpty then c3 else []

/-- `isSelfHostingUsage` from `policy.js`: `self_hosting === true`, or
`hosting` equal to (or an array containing) `"self_hosting"`. Array
entries that are not strings compare `false` under JS `===`, as here. -/
def isSelfHostingUsage (fontUsage : Json) : Bool :=
  match asObject fontUsage with
  | none => false
  | some usage =>
    match getProp usage "self_hosting" with
    | .bool true => true
    | _ =>
      match getProp usage "hosting" with
      | .str s => s == "self_hosting"
      | .arr xs => xs.any (fun x =>
          match x with
          | .str s => s == "self_hosting"
          | _ => false)
      | _ => false

/-- `findRight` from `policy.js`: first right whose `right_type` is a
string equal to `rightType` (note: no non-emptiness requirement here,
unlike `asString`). -/
def findRight (rights : List Json) (rightType : String) : Option Json :=
  rights.find? (fun right =>
    match getProp right "right_type" with
    | .str s => s == rightType
    | _ => false)

/-- `makeDecision` from `policy.js`. -/
def makeDecision (reasons : List Reason) : String :=
  if reasons.any (fun reason => reason.severity == "escalate") then "escalate"
  else if reasons.any (fun reason => reason.severity == "warn") then "warn"
  else "allow"

/-- `normalizeRights` from `policy.js`. -/
def normalizeRights (v : Json) : List Json :=
  match v with
  | .arr xs => xs.filter isPlainObject
  | _ => []

/-- The `instancesById` index: keyed by `license_id`, later entries
overwriting earlier ones. -/
def buildInstancesById (instances : List Json) : List (String × Json) :=
  instances.foldl (fun m inst =>
    match asString (getProp inst "license_id") with
    | some instanceId => mapSet m instanceId inst
    | none => m) []

/-- `asString(font.active_license_instance_id) ?? instanceIds[0] ?? null`. -/
def resolveActiveInstanceId (font : Json) : Option String :=
  match asString (getProp font "active_license_instance_id") with
  | some s => some s
  | none => (asStringArray (getProp font "license_instance_ids")).head?

/-- The BYO block of the per-font loop: findings and required-evidence
markers. -/
def fontByoFindings (fontId : String) (sourceType : Option String)
    (activeInstanceId : Option String) (instance? : Option Json) :
    List Reason × List String :=
  if sourceType == some "byo" then
    match instance? with
    | none =>
      ([⟨"BYO_NO_LICENSE_INSTANCE", "warn",
         "BYO font \x27" ++ fontId ++ "\x27 has no linked license instance.",
         .obj [("font_id", .str fontId)]⟩],
       ["license_instances[].evidence[]"])
    | some inst =>
      let evidence := match getProp inst "evidence" with
        | .arr xs => xs
        | _ => []
      if evidence.isEmpty then
        ([⟨"BYO_NO_EVIDENCE", "warn",
           "BYO font \x27" ++ fontId ++ "\x27 has no evidence attached.",
           .obj [("font_id", .str fontId),
                 ("license_id", match activeInstanceId with
                                | some s => .str s
                                | none => .null)]⟩],
         ["license_instances[].evidence[]"])
      else ([], [])
  else ([], [])

/-- The status block of the per-font loop. -/
def fontStatusFindings (activeInstanceId : String) (inst : Json) : List Reason :=
  match asString (getProp inst "status") with
  | some status =>
    if status = "active" then []
    else
      [⟨"LICENSE_STATUS_NOT_ACTIVE", "escalate",
        "License instance \x27" ++ activeInstanceId ++ "\x27 is \x27" ++ status
          ++ "\x27, not active.",
        .obj [("license_id", .str activeInstanceId), ("status", .str status)]⟩]
  | none => []

/-- The domain-scope block of the per-font loop: one finding per project
domain missing from the instance scope, only when both sides declare
domains. -/
def fontDomainFindings (projectDomains : List String) (activeInstanceId : String)
    (inst : Json) : List Reason :=
  let scopeDomains := asStringArray (getProp (getProp inst "scope") "domains")
  if ¬projectDomains.isEmpty ∧ ¬scopeDomains.isEmpty then
    projectDomains.filterMap (fun domain =>
      if scopeDomains.contains domain then none
      else some ⟨"DOMAIN_OUT_OF_SCOPE", "warn",
        "Project domain \x27" ++ domain ++ "\x27 is not covered by license scope for \x27"
          ++ activeInstanceId ++ "\x27.",
        .obj [("license_id", .str activeInstanceId), ("domain", .str domain)]⟩)
  else []

/-- The rights block of the per-font loop (runs only with a resolved
offering): self-hosting check plus the modification chain, where the JS
`continue` after `MODIFICATION_NOT_ALLOWED` just skips the kinds
check. -/
def fontRightsFindings (font : Json) (activeInstanceId : String) (offering : Json) :
    List Reason :=
  let rights := normalizeRights (getProp offering "rights")
  let fontId := (asString (getProp font "font_id")).getD "unknown_font"
  let selfHostReasons :=
    if isSelfHostingUsage (getProp font "usage") then
      let selfHostingAllowed := match findRight rights "distribution_self_hosting" with
        | some r => (match getProp r "allowed" with | .bool true => true | _ => false)
        | none => false
      let cdnAllowed := match findRight rights "distribution_cdn_hosting" with
        | some r => (match getProp r "allowed" with | .bool true => true | _ => false)
        | none => false
      if cdnAllowed && !selfHostingAllowed then
        [⟨"SELF_HOSTING_NOT_ALLOWED", "warn",
          "Font \x27" ++ fontId ++ "\x27 appears self-hosted but offering allows CDN-only distribution.",
          .obj [("font_id", .str fontId), ("license_id", .str activeInstanceId)]⟩]
      else []
    else []
  let requiredModifications := readRequiredModifications (getProp font "usage")
  let notAllowedReason : Reason :=
    ⟨"MODIFICATION_NOT_ALLOWED", "escalate",
      "Font \x27" ++ fontId ++ "\x27 requires modification but offering does not allow it.",
      .obj [("font_id", .str fontId), ("license_id", .str activeInstanceId),
            ("required", .arr (requiredModifications.map Json.str))]⟩
  let modReasons :=
    if requiredModifications.isEmpty then []
    else
      match findRight rights "modification" with
      | none => [notAllowedReason]
      | some modificationRight =>
        if (match getProp modificationRight "allowed" with | .bool true => true | _ => false) then
          let allowedKinds := asStringArray (getProp modificationRight "modification_kinds")
          if allowedKinds.isEmpty then []
          else
            let disallowedKinds := requiredModifications.filter
              (fun kind => !(allowedKinds.contains kind))
            if disallowedKinds.isEmpty then []
            else
              [⟨"MODIFICATION_KIND_NOT_ALLOWED", "escalate",
                "Font \x27" ++ fontId ++ "\x27 requires unsupported modification kinds.",
                .obj [("font_id", .str fontId), ("license_id", .str activeInstanceId),
                      ("required", .arr (requiredModifications.map Json.str)),
                      ("disallowed", .arr (disallowedKinds.map Json.str))]⟩]
        else [notAllowedReason]
  selfHostReasons ++ modReasons

/-- The offering-resolution block: look the `offering_ref` up; a missing
offering yields `OFFERING_REFERENCE_MISSING` and stops; an unusable ref
(either field missing) silently stops (the JS `if (!offering) continue`
with no prior push). -/
def fontOfferingFindings (offeringsByKey : List (String × Json)) (font : Json)
    (activeInstanceId : String) (inst : Json) : List Reason :=
  let offeringRef := getProp inst "offering_ref"
  match asString (getProp offeringRef "offering_id"),
        asString (getProp offeringRef "offering_version") with
  | some offeringId, some offeringVersion =>
    match mapGet offeringsByKey (makeOfferingKey offeringId offeringVersion) with
    | none =>
      [⟨"OFFERING_REFERENCE_MISSING", "warn",
        "Offering \x27" ++ offeringId ++ "@" ++ offeringVersion ++ "\x27 referenced by \x27"
          ++ activeInstanceId ++ "\x27 is missing.",
        .obj [("license_id", .str activeInstanceId), ("offering_id", .str offeringId),
              ("offering_version", .str offeringVersion)]⟩]
    | some offering => fontRightsFindings font activeInstanceId offering
  | _, _ => []

/-- One full iteration of the per-font loop: findings in push order plus
required-evidence markers. When an instance resolved,
`activeInstanceId` is necessarily `some`, so the `getD ""` default is
never observable. -/
def fontFindings (projectDomains : List String)
    (instancesById offeringsByKey : List (String × Json)) (font : Json) :
    List Reason × List String :=
  let fontId := (asString (getProp font "font_id")).getD "unknown_font"
  let sourceType := asString (getProp (getProp font "source") "type")
  let activeInstanceId := resolveActiveInstanceId font
  let instance? := match activeInstanceId with
    | some iid => mapGet instancesById iid
    | none => none
  let byo := fontByoFindings fontId sourceType activeInstanceId instance?
  match instance? with
  | none => byo
  | some inst =>
    let aid := activeInstanceId.getD ""
    (byo.1 ++ fontStatusFindings aid inst
       ++ fontDomainFindings projectDomains aid inst
       ++ fontOfferingFindings offeringsByKey font aid inst,
     byo.2)

/-- JS `Set` insertion-order deduplication (keep the first occurrence). -/
def dedupFirst : List String → List String
  | [] => []
  | x :: xs => x :: dedupFirst (xs.filter (fun y => y != x))
termination_by l => l.length
decreasing_by
  have := List.length_filter_le (fun y => y != x) xs
  simp only [List.length_cons]
  omega

/-- `evaluatePolicy(manifest)` from `policy.js`. -/
def evaluatePolicy (manifest : Json) : PolicyResult :=
  let projectDomains := readProjectDomains manifest
  let fonts := manifestArray manifest "fonts"
  let instances := manifestArray manifest "license_instances"
  let offerings := manifestArray manifest "license_offerings"
  let instancesById := buildInstancesById instances
  let offeringsByKey := buildOfferingsByKey offerings
  let perFont := fonts.map (fontFindings projectDomains instancesById offeringsByKey)
  let reasons := (perFont.map Prod.fst).flatten
  { decision := makeDecision reasons
    reasons := reasons
    evidence_required := sortStrings (dedupFirst ((perFont.map Prod.snd).flatten)) }

/-! ### C5: decision severity precedence -/

theorem fontByoFindings_severity (fontId : String) (sourceType : Option String)
    (activeInstanceId : Option String) (instance? : Option Json) :
    ∀ r ∈ (fontByoFindings fontId sourceType activeInstanceId instance?).1,
      r.severity = "warn" := by
  intro r hr
  simp only [fontByoFindings] at hr
  repeat' split at hr
  all_goals simp_all

theorem fontStatusFindings_severity (activeInstanceId : String) (inst : Json) :
    ∀ r ∈ fontStatusFindings activeInstanceId inst, r.severity = "escalate" := by
  intro r hr
  simp only [fontStatusFindings] at hr
  repeat' split at hr
  all_goals simp_all

theorem fontDomainFindings_severity (projectDomains : List String)
    (activeInstanceId : String) (inst : Json) :
    ∀ r ∈ fontDomainFindings projectDomains activeInstanceId inst,
      r.severity = "warn" := by
  intro r hr
  simp only [fontDomainFindings] at hr
  split at hr
  · rcases List.mem_filterMap.mp hr with ⟨d, _, hd⟩
    split at hd
    · exact absurd hd (by simp)
    · simp only [Option.some.injEq] at hd
      subst hd
      rfl
  · simp at hr

theorem fontRightsFindings_severity (font : Json) (activeInstanceId : String)
    (offering : Json) :
    ∀ r ∈ fontRightsFindings font activeInstanceId offering,
      r.severity = "warn" ∨ r.severity = "escalate" := by
  intro r hr
  simp only [fontRightsFindings] at hr
  rcases List.mem_append.mp hr with h | h
  · repeat' split at h
    all_goals simp_all
  · repeat' split at h
    all_goals simp_all

theorem fontOfferingFindings_severity (offeringsByKey : List (String × Json))
    (font : Json) (activeInstanceId : String) (inst : Json) :
    ∀ r ∈ fontOfferingFindings offeringsByKey font activeInstanceId inst,
      r.severity = "warn" ∨ r.severity = "escalate" := by
  intro r hr
  simp only [fontOfferingFindings] at hr
  split at hr
  · split at hr
    · simp at hr
      left
      rw [hr]
    · exact fontRightsFindings_severity font activeInstanceId _ r hr
  · simp at hr

theorem fontFindings_severity (projectDomains : List String)
    (instancesById offeringsByKey : List (String × Json)) (font : Json) :
    ∀ r ∈ (fontFindings projectDomains instancesById offeringsByKey font).1,
      r.severity = "warn" ∨ r.severity = "escalate" := by
  intro r hr
  simp only [fontFindings] at hr
  split at hr
  · exact Or.inl (fontByoFindings_severity _ _ _ _ r hr)
  · simp only [List.append_assoc, List.mem_append] at hr
    rcases hr with h | h | h | h
    · exact Or.inl (fontByoFindings_severity _ _ _ _ r h)
    · exact Or.inr (fontStatusFindings_severity _ _ r h)
    · exact Or.inl (fontDomainFindings_severity _ _ _ r h)
    · exact fontOfferingFindings_severity _ _ _ _ r h

theorem evaluatePolicy_reasons_severity (manifest : Json) :
    ∀ r ∈ (evaluatePolicy manifest).reasons,
      r.severity = "warn" ∨ r.severity = "escalate" := by
  intro r hr
  simp only [evaluatePolicy, List.mem_flatten, List.mem_map] at hr
  obtain ⟨l, ⟨pr, ⟨font, _, hpr⟩, hl⟩, hrl⟩ := hr
  subst hl hpr
  exact fontFindings_severity _ _ _ font r hrl

theorem makeDecision_spec (reasons : List Reason)
    (hsev : ∀ r ∈ reasons, r.severity = "warn" ∨ r.severity = "escalate") :
    (makeDecision reasons = "escalate" ↔ ∃ r ∈ reasons, r.severity = "escalate") ∧
    (makeDecision reasons = "warn" ↔
      ((¬∃ r ∈ reasons, r.severity = "escalate") ∧ ∃ r ∈ reasons, r.severity = "warn")) ∧
    (makeDecision reasons = "allow" ↔ reasons = []) := by
  unfold makeDecision
  by_cases hesc : (reasons.any (fun reason => reason.severity == "escalate")) = true
  · have hex : ∃ r ∈ reasons, r.severity = "escalate" := by
      rcases List.any_eq_true.mp hesc with ⟨r, hr, hb⟩
      exact ⟨r, hr, by simpa using hb⟩
    have hne : reasons ≠ [] := by
      rcases hex with ⟨r, hr, _⟩
      intro hnil
      rw [hnil] at hr
      exact absurd hr (List.not_mem_nil r)
    rw [if_pos hesc]
    refine ⟨by simp [hex], ?_, ?_⟩
    · constructor
      · intro h
        exact absurd h (by decide)
      · rintro ⟨hno, _⟩
        exact absurd hex hno
    · constructor
      · intro h
        exact absurd h (by decide)
      · intro h
        exact absurd h hne
  · have hnex : ¬∃ r ∈ reasons, r.severity = "escalate" := by
      rintro ⟨r, hr, hs⟩
      exact hesc (List.any_eq_true.mpr ⟨r, hr, by simpa using hs⟩)
    rw [if_neg hesc]
    by_cases hwarn : (reasons.any (fun reason => reason.severity == "warn")) = true
    · have hex : ∃ r ∈ reasons, r.severity = "warn" := by
        rcases List.any_eq_true.mp hwarn with ⟨r, hr, hb⟩
        exact ⟨r, hr, by simpa using hb⟩
      have hne : reasons ≠ [] := by
        rcases hex with ⟨r, hr, _⟩
        intro hnil
        rw [hnil] at hr
        exact absurd hr (List.not_mem_nil r)
      rw [if_pos hwarn]
      refine ⟨?_, by simp [hnex, hex], ?_⟩
      · constructor
        · intro h
          exact absurd h (by decide)
        · intro hex'
          exact absurd hex' hnex
      · constructor
        · intro h
          exact absurd h (by decide)
        · intro h
          exact absurd h hne
    · have hnil : reasons = [] := by
        rcases reasons with _ | ⟨r, rest⟩
        · rfl
        · rcases hsev r (by simp) with h | h
          · exact absurd (List.any_eq_true.mpr ⟨r, by simp, by simpa using h⟩) hwarn
          · exact absurd (List.any_eq_true.mpr ⟨r, by simp, by simpa using h⟩) hesc
      subst hnil
      simp

/-- C5: the decision of `evaluatePolicy` is `escalate` iff some reason
escalates; otherwise `warn` iff some reason warns; otherwise `allow` —
and `allow` holds iff the reasons list is empty (every reason the engine
can push carries severity `warn` or `escalate`). -/
theorem evaluatePolicy_decision_spec (manifest : Json) :
    ((evaluatePolicy manifest).decision = "escalate" ↔
      ∃ r ∈ (evaluatePolicy manifest).reasons, r.severity = "escalate") ∧
    ((evaluatePolicy manifest).decision = "warn" ↔
      ((¬∃ r ∈ (evaluatePolicy manifest).reasons, r.severity = "escalate") ∧
        ∃ r ∈ (evaluatePolicy manifest).reasons, r.severity = "warn")) ∧
    ((evaluatePolicy manifest).decision = "allow" ↔
      (evaluatePolicy manifest).reasons = []) := by
  have hd : (evaluatePolicy manifest).decision
      = makeDecision (evaluatePolicy manifest).reasons := rfl
  rw [hd]
  exact makeDecision_spec _ (evaluatePolicy_reasons_severity manifest)

/-! ### C9: BYO evidence gating -/

theorem fontStatusFindings_not_byo_code (activeInstanceId : String) (inst : Json) :
    ∀ r ∈ fontStatusFindings activeInstanceId inst, r.code ≠ "BYO_NO_EVIDENCE" := by
  intro r hr
  simp only [fontStatusFindings] at hr
  repeat' split at hr
  all_goals simp_all

theorem fontDomainFindings_not_byo_code (projectDomains : List String)
    (activeInstanceId : String) (inst : Json) :
    ∀ r ∈ fontDomainFindings projectDomains activeInstanceId inst,
      r.code ≠ "BYO_NO_EVIDENCE" := by
  intro r hr
  simp only [fontDomainFindings] at hr
  split at hr
  · rcases List.mem_filterMap.mp hr with ⟨d, _, hd⟩
    split at hd
    · exact absurd hd (by simp)
    · simp only [Option.some.injEq] at hd
      subst hd
      simp
  · simp at hr

theorem fontRightsFindings_not_byo_code (font : Json) (activeInstanceId : String)
    (offering : Json) :
    ∀ r ∈ fontRightsFindings font activeInstanceId offering,
      r.code ≠ "BYO_NO_EVIDENCE" := by
  intro r hr
  simp only [fontRightsFindings] at hr
  rcases List.mem_append.mp hr with h | h
  · repeat' split at h
    all_goals simp_all
  · repeat' split at h
    all_goals simp_all

theorem fontOfferingFindings_not_byo_code (offeringsByKey : List (String × Json))
    (font : Json) (activeInstanceId : String) (inst : Json) :
    ∀ r ∈ fontOfferingFindings offeringsByKey font activeInstanceId inst,
      r.code ≠ "BYO_NO_EVIDENCE" := by
  intro r hr
  simp only [fontOfferingFindings] at hr
  split at hr
  · split at hr
    · simp at hr
      rw [hr]
      simp
    · exact fontRightsFindings_not_byo_code font activeInstanceId _ r hr
  · simp at hr

theorem mem_dedupFirst (a : String) : ∀ (l : List String), a ∈ dedupFirst l ↔ a ∈ l
  | [] => by simp [dedupFirst]
  | x :: xs => by
    rw [dedupFirst]
    constructor
    · intro h
      rcases List.mem_cons.mp h with h | h
      · exact List.mem_cons.mpr (Or.inl h)
      · have := (mem_dedupFirst a (xs.filter (fun y => y != x))).mp h
        exact List.mem_cons.mpr (Or.inr (List.mem_filter.mp this).1)
    · intro h
      rcases List.mem_cons.mp h with h | h
      · exact List.mem_cons.mpr (Or.inl h)
      · by_cases hx : a = x
        · exact List.mem_cons.mpr (Or.inl hx)
        · refine List.mem_cons.mpr (Or.inr ?_)
          exact (mem_dedupFirst a (xs.filter (fun y => y != x))).mpr
            (List.mem_filter.mpr ⟨h, by simpa using hx⟩)
termination_by l => l.length
decreasing_by
  all_goals
    have := List.length_filter_le (fun y => y != x) xs
    simp only [List.length_cons]
    omega

theorem mem_sortStrings {a : String} {l : List String} :
    a ∈ sortStrings l ↔ a ∈ l := by
  unfold sortStrings
  exact List.mem_mergeSort

set_option maxHeartbeats 1000000 in
/-- C9: a BYO font whose resolved active instance exists but carries
zero evidence entries contributes exactly one `BYO_NO_EVIDENCE` finding
(and every such finding carries severity `warn`), and
`"license_instances[].evidence[]"` lands in the policy's
`evidence_required`; any font whose source type is `"oss"` contributes
no `BYO_NO_EVIDENCE` finding at all. -/
theorem evaluatePolicy_byo_evidence_gating :
    (∀ (manifest font : Json) (iid : String) (inst : Json),
      font ∈ manifestArray manifest "fonts" →
      asString (getProp (getProp font "source") "type") = some "byo" →
      resolveActiveInstanceId font = some iid →
      mapGet (buildInstancesById (manifestArray manifest "license_instances")) iid
        = some inst →
      (match getProp inst "evidence" with | .arr xs => xs | _ => []) = ([] : List Json) →
      ((fontFindings (readProjectDomains manifest)
          (buildInstancesById (manifestArray manifest "license_instances"))
          (buildOfferingsByKey (manifestArray manifest "license_offerings")) font).1.countP
            (fun r => r.code == "BYO_NO_EVIDENCE") = 1 ∧
       (∀ r ∈ (fontFindings (readProjectDomains manifest)
          (buildInstancesById (manifestArray manifest "license_instances"))
          (buildOfferingsByKey (manifestArray manifest "license_offerings")) font).1,
          r.code = "BYO_NO_EVIDENCE" → r.severity = "warn") ∧
       "license_instances[].evidence[]" ∈ (evaluatePolicy manifest).evidence_required)) ∧
    (∀ (projectDomains : List String) (instancesById offeringsByKey : List (String × Json))
        (font' : Json),
      asString (getProp (getProp font' "source") "type") = some "oss" →
      (fontFindings projectDomains instancesById offeringsByKey font').1.countP
        (fun r => r.code == "BYO_NO_EVIDENCE") = 0) := by
  constructor
  · intro manifest font iid inst hfont hsrc hres hinst hev
    have hbyo : fontByoFindings ((asString (getProp font "font_id")).getD "unknown_font")
        (asString (getProp (getProp font "source") "type"))
        (some iid) (some inst)
        = ([⟨"BYO_NO_EVIDENCE", "warn",
             "BYO font \x27" ++ ((asString (getProp font "font_id")).getD "unknown_font")
               ++ "\x27 has no evidence attached.",
             .obj [("font_id", .str ((asString (getProp font "font_id")).getD "unknown_font")),
                   ("license_id", .str iid)]⟩],
           ["license_instances[].evidence[]"]) := by
      rw [hsrc]
      simp [fontByoFindings, hev]
    have hff : (fontFindings (readProjectDomains manifest)
        (buildInstancesById (manifestArray manifest "license_instances"))
        (buildOfferingsByKey (manifestArray manifest "license_offerings")) font)
        = ([⟨"BYO_NO_EVIDENCE", "warn",
             "BYO font \x27" ++ ((asString (getProp font "font_id")).getD "unknown_font")
               ++ "\x27 has no evidence attached.",
             .obj [("font_id", .str ((asString (getProp font "font_id")).getD "unknown_font")),
                   ("license_id", .str iid)]⟩]
            ++ fontStatusFindings iid inst
            ++ fontDomainFindings (readProjectDomains manifest) iid inst
            ++ fontOfferingFindings
                (buildOfferingsByKey (manifestArray manifest "license_offerings")) font
                iid inst,
           ["license_instances[].evidence[]"]) := by
      simp only [fontFindings, hres, hinst, Option.getD_some, hbyo]
    have h1 : (fontStatusFindings iid inst).countP
        (fun r => r.code == "BYO_NO_EVIDENCE") = 0 :=
      List.countP_eq_zero.mpr (fun r hr => by
        simpa using fontStatusFindings_not_byo_code _ _ r hr)
    have h2 : (fontDomainFindings (readProjectDomains manifest) iid inst).countP
        (fun r => r.code == "BYO_NO_EVIDENCE") = 0 :=
      List.countP_eq_zero.mpr (fun r hr => by
        simpa using fontDomainFindings_not_byo_code _ _ _ r hr)
    have h3 : (fontOfferingFindings
        (buildOfferingsByKey (manifestArray manifest "license_offerings")) font
        iid inst).countP
        (fun r => r.code == "BYO_NO_EVIDENCE") = 0 :=
      List.countP_eq_zero.mpr (fun r hr => by
        simpa using fontOfferingFindings_not_byo_code _ _ _ _ r hr)
    refine ⟨?_, ?_, ?_⟩
    · rw [hff]
      simp only [List.append_assoc, List.countP_append, h1, h2, h3]
      simp [List.countP_cons]
    · intro r hr hcode
      rw [hff] at hr
      simp only [List.append_assoc, List.mem_append] at hr
      rcases hr with h' | h' | h' | h'
      · simp only [List.mem_singleton] at h'
        subst h'
        rfl
      · exact absurd hcode (fontStatusFindings_not_byo_code _ _ r h')
      · exact absurd hcode (fontDomainFindings_not_byo_code _ _ _ r h')
      · exact absurd hcode (fontOfferingFindings_not_byo_code _ _ _ _ r h')
    · have hmem : "license_instances[].evidence[]"
          ∈ (fontFindings (readProjectDomains manifest)
              (buildInstancesById (manifestArray manifest "license_instances"))
              (buildOfferingsByKey (manifestArray manifest "license_offerings")) font).2 := by
        rw [hff]
        simp
      have hflat : "license_instances[].evidence[]"
          ∈ (((manifestArray manifest "fonts").map
              (fontFindings (readProjectDomains manifest)
                (buildInstancesById (manifestArray manifest "license_instances"))
                (buildOfferingsByKey (manifestArray manifest "license_offerings")))).map
              Prod.snd).flatten := by
        apply List.mem_flatten.mpr
        refine ⟨(fontFindings (readProjectDomains manifest)
            (buildInstancesById (manifestArray manifest "license_instances"))
            (buildOfferingsByKey (manifestArray manifest "license_offerings")) font).2,
          ?_, hmem⟩
        exact List.mem_map_of_mem _ (List.mem_map_of_mem _ hfont)
      show _ ∈ sortStrings (dedupFirst _)
      rw [mem_sortStrings, mem_dedupFirst]
      exact hflat
  · intro projectDomains instancesById offeringsByKey font' hsrc
    have hb : (asString (getProp (getProp font' "source") "type") == some "byo") = false := by
      rw [hsrc]
      rfl
    have h1 : ∀ inst, (fontStatusFindings ((resolveActiveInstanceId font').getD "") inst).countP
        (fun r => r.code == "BYO_NO_EVIDENCE") = 0 := fun inst =>
      List.countP_eq_zero.mpr (fun r hr => by
        simpa using fontStatusFindings_not_byo_code _ _ r hr)
    have h2 : ∀ inst, (fontDomainFindings projectDomains
        ((resolveActiveInstanceId font').getD "") inst).countP
        (fun r => r.code == "BYO_NO_EVIDENCE") = 0 := fun inst =>
      List.countP_eq_zero.mpr (fun r hr => by
        simpa using fontDomainFindings_not_byo_code _ _ _ r hr)
    have h3 : ∀ inst, (fontOfferingFindings offeringsByKey font'
        ((resolveActiveInstanceId font').getD "") inst).countP
        (fun r => r.code == "BYO_NO_EVIDENCE") = 0 := fun inst =>
      List.countP_eq_zero.mpr (fun r hr => by
        simpa using fontOfferingFindings_not_byo_code _ _ _ _ r hr)
    simp only [fontFindings, fontByoFindings, hb, Bool.false_eq_true, if_false]
    split
    · simp
    · rename_i inst _
      simp only [List.nil_append, List.append_assoc, List.countP_append, h1, h2, h3]

/-- C9 witness font: BYO, linked to `lic_1`. -/
def c9Font : Json :=
  .obj [("font_id", .str "font_1"),
        ("source", .obj [("type", .str "byo")]),
        ("active_license_instance_id", .str "lic_1")]

/-- C9 witness instance: active but with zero evidence entries. -/
def c9Instance : Json :=
  .obj [("license_id", .str "lic_1"),
        ("status", .str "active"),
        ("evidence", .arr [])]

/-- C9 witness manifest. -/
def c9Manifest : Json :=
  .obj [("fonts", .arr [c9Font]),
        ("license_instances", .arr [c9Instance])]

/-- The same font with `source.type` switched to `"oss"`. -/
def c9FontOss : Json :=
  .obj [("font_id", .str "font_1"),
        ("source", .obj [("type", .str "oss")]),
        ("active_license_instance_id", .str "lic_1")]

/-- C9 witness: gating instantiated on the concrete BYO manifest, and
the oss-switched font yielding no `BYO_NO_EVIDENCE`. -/
theorem evaluatePolicy_byo_evidence_gating_witness :
    ((fontFindings (readProjectDomains c9Manifest)
        (buildInstancesById (manifestArray c9Manifest "license_instances"))
        (buildOfferingsByKey (manifestArray c9Manifest "license_offerings")) c9Font).1.countP
          (fun r => r.code == "BYO_NO_EVIDENCE") = 1) ∧
    "license_instances[].evidence[]" ∈ (evaluatePolicy c9Manifest).evidence_required ∧
    (fontFindings [] [] [] c9FontOss).1.countP
      (fun r => r.code == "BYO_NO_EVIDENCE") = 0 := by
  have h := evaluatePolicy_byo_evidence_gating.1 c9Manifest c9Font "lic_1" c9Instance
    (by simp [c9Manifest, c9Font, manifestArray, getProp])
    rfl rfl
    (by simp [c9Manifest, c9Instance, manifestArray, getProp, buildInstancesById,
      mapSet, mapGet, asString, List.find?])
    rfl
  exact ⟨h.1, h.2.2, evaluatePolicy_byo_evidence_gating.2 [] [] [] c9FontOss rfl⟩

/-! ### C2: inactive instances -/

/-- The C2 counterexample font: requires the `convert` modification,
source `oss` (so no BYO findings muddy the picture). -/
def c2Font : Json :=
  .obj [("font_id", .str "font_1"),
        ("source", .obj [("type", .str "oss")]),
        ("usage", .obj [("required_modifications", .arr [.str "convert"])]),
        ("active_license_instance_id", .str "lic_1")]

/-- The C2 counterexample instance: expired, referencing a resolvable
offering. -/
def c2Instance : Json :=
  .obj [("license_id", .str "lic_1"),
        ("status", .str "expired"),
        ("offering_ref", .obj [("offering_id", .str "off_1"),
                               ("offering_version", .str "1.0.0")])]

/-- The C2 counterexample offering: no rights at all, so the required
modification is not allowed. -/
def c2Offering : Json :=
  .obj [("offering_id", .str "off_1"),
        ("offering_version", .str "1.0.0"),
        ("rights", .arr [])]

/-- The C2 counterexample manifest. -/
def c2Manifest : Json :=
  .obj [("fonts", .arr [c2Font]),
        ("license_instances", .arr [c2Instance]),
        ("license_offerings", .arr [c2Offering])]

/-- C2 counterexample: on `c2Manifest` the instance is `expired`, yet
the policy engine emits — beyond `LICENSE_STATUS_NOT_ACTIVE` — the
rights-based `MODIFICATION_NOT_ALLOWED` escalate for its offering: the
status check does not suppress the rights checks, contradicting the
claim. -/
theorem c2_expired_instance_still_rights_checked :
    (evaluatePolicy c2Manifest).reasons.map (fun r => r.code)
      = ["LICENSE_STATUS_NOT_ACTIVE", "MODIFICATION_NOT_ALLOWED"] := by
  simp [evaluatePolicy, c2Manifest, c2Font, c2Instance, c2Offering, manifestArray,
    getProp, readProjectDomains, buildInstancesById, buildOfferingsByKey, mapSet,
    mapGet, makeOfferingKey, asString, asObject, isPlainObject, asStringArray,
    fontFindings, resolveActiveInstanceId, fontByoFindings, fontStatusFindings,
    fontDomainFindings, fontOfferingFindings, fontRightsFindings, normalizeRights,
    isSelfHostingUsage, readRequiredModifications, findRight, makeDecision,
    List.find?, dedupFirst, sortStrings]

/-- C2 (amended): an instance whose status is present and not `active`
never contributes a quote line item (it is skipped with
`"<license_id>:status=<status>"`), and the policy engine flags it with
`LICENSE_STATUS_NOT_ACTIVE` (escalate); however, rights-based findings
are still evaluated for such an instance and may be emitted in
addition (spec §4.2 step 4: the status check "does not suppress later
checks"). -/
theorem inactive_instance_spec :
    (∀ (offs : List (String × Json)) (inst : Json) (lid st : String),
      asString (getProp inst "license_id") = some lid →
      asString (getProp inst "status") = some st → st ≠ "active" →
      stepInstance offs inst = .ok (some (.skippedEntry (lid ++ ":status=" ++ st)))) ∧
    (∀ (projectDomains : List String) (instancesById offeringsByKey : List (String × Json))
        (font : Json) (iid : String) (inst : Json) (st : String),
      resolveActiveInstanceId font = some iid →
      mapGet instancesById iid = some inst →
      asString (getProp inst "status") = some st → st ≠ "active" →
      (⟨"LICENSE_STATUS_NOT_ACTIVE", "escalate",
        "License instance \x27" ++ iid ++ "\x27 is \x27" ++ st ++ "\x27, not active.",
        .obj [("license_id", .str iid), ("status", .str st)]⟩ : Reason)
        ∈ (fontFindings projectDomains instancesById offeringsByKey font).1) := by
  constructor
  · intro offs inst lid st h1 h2 h3
    simp [stepInstance, h1, h2, h3]
  · intro projectDomains instancesById offeringsByKey font iid inst st hres hinst hst hne
    have hstatus : fontStatusFindings iid inst
        = [⟨"LICENSE_STATUS_NOT_ACTIVE", "escalate",
            "License instance \x27" ++ iid ++ "\x27 is \x27" ++ st ++ "\x27, not active.",
            .obj [("license_id", .str iid), ("status", .str st)]⟩] := by
      simp [fontStatusFindings, hst, hne]
    simp only [fontFindings, hres, hinst, Option.getD_some]
    simp only [List.append_assoc, List.mem_append, hstatus]
    exact Or.inr (Or.inl (by simp))

/-- C2 witness: the amended statement instantiated on the counterexample
manifest's pieces. -/
theorem inactive_instance_spec_witness :
    stepInstance [] c2Instance
      = .ok (some (.skippedEntry ("lic_1" ++ ":status=" ++ "expired"))) ∧
    (⟨"LICENSE_STATUS_NOT_ACTIVE", "escalate",
      "License instance \x27" ++ "lic_1" ++ "\x27 is \x27" ++ "expired" ++ "\x27, not active.",
      .obj [("license_id", .str "lic_1"), ("status", .str "expired")]⟩ : Reason)
      ∈ (fontFindings [] [("lic_1", c2Instance)] [] c2Font).1 := by
  constructor
  · exact inactive_instance_spec.1 [] c2Instance "lic_1" "expired" rfl rfl (by decide)
  · exact inactive_instance_spec.2 [] [("lic_1", c2Instance)] [] c2Font "lic_1" c2Instance
      "expired" rfl rfl rfl (by decide)

end Setzkasten
